import Mathlib

/-!
Verification of the numeric core of `src/extraction.py` (RF_Extract).

The Python code computes with IEEE floating point and numpy complex numbers.
We model finite complex values exactly by Gaussian rationals (`CQ`), and the
non-finite values (NaN / Inf) that numpy produces on division by zero or on
`sqrt` of a negative number by `none` in `Option CQ` (any arithmetic
operation touching a non-finite value stays non-finite, which matches IEEE
NaN propagation for the operations used here).  Transcendental library
functions (`np.arccosh`, `np.sinh`, `math.cos`, ...) are modelled as opaque
function parameters: every float is a rational, so a float-valued library
function is some function `ℚ → ℚ` (or `CQ → CQ`); the claims proved below
hold for every such function.  The claims about `log10` / `arcsin` round
trips (C7) and signs of `log10` expressions (C8), which genuinely depend on
the analytic behaviour of those functions, are stated over `ℝ` and `ℂ`
with Mathlib's exact transcendental functions instead.
-/

/-- Gaussian rationals: the exact model of a finite Python `complex` value
(`re` and `im` are the two float components, floats being rationals). -/
structure CQ where
  re : ℚ
  im : ℚ
  deriving DecidableEq, Repr

namespace CQ

/-- Embedding of a real (float) scalar as a complex value. -/
def ofQ (q : ℚ) : CQ := ⟨q, 0⟩

instance : Zero CQ := ⟨⟨0, 0⟩⟩
instance : One CQ := ⟨⟨1, 0⟩⟩
instance : Add CQ := ⟨fun z w => ⟨z.re + w.re, z.im + w.im⟩⟩
instance : Neg CQ := ⟨fun z => ⟨-z.re, -z.im⟩⟩
instance : Sub CQ := ⟨fun z w => ⟨z.re - w.re, z.im - w.im⟩⟩
instance : Mul CQ := ⟨fun z w => ⟨z.re * w.re - z.im * w.im, z.re * w.im + z.im * w.re⟩⟩
instance : Inv CQ := ⟨fun z => ⟨z.re / (z.re * z.re + z.im * z.im), -z.im / (z.re * z.re + z.im * z.im)⟩⟩

/-- Complex conjugate, the model of `np.conj`. -/
def conj (z : CQ) : CQ := ⟨z.re, -z.im⟩

@[simp] theorem zero_re : (0 : CQ).re = 0 := rfl
@[simp] theorem zero_im : (0 : CQ).im = 0 := rfl
@[simp] theorem one_re : (1 : CQ).re = 1 := rfl
@[simp] theorem one_im : (1 : CQ).im = 0 := rfl
@[simp] theorem add_re (z w : CQ) : (z + w).re = z.re + w.re := rfl
@[simp] theorem add_im (z w : CQ) : (z + w).im = z.im + w.im := rfl
@[simp] theorem neg_re (z : CQ) : (-z).re = -z.re := rfl
@[simp] theorem neg_im (z : CQ) : (-z).im = -z.im := rfl
@[simp] theorem sub_re (z w : CQ) : (z - w).re = z.re - w.re := rfl
@[simp] theorem sub_im (z w : CQ) : (z - w).im = z.im - w.im := rfl
@[simp] theorem mul_re (z w : CQ) : (z * w).re = z.re * w.re - z.im * w.im := rfl
@[simp] theorem mul_im (z w : CQ) : (z * w).im = z.re * w.im + z.im * w.re := rfl
@[simp] theorem inv_re (z : CQ) : z⁻¹.re = z.re / (z.re * z.re + z.im * z.im) := rfl
@[simp] theorem inv_im (z : CQ) : z⁻¹.im = -z.im / (z.re * z.re + z.im * z.im) := rfl
@[simp] theorem ofQ_re (q : ℚ) : (ofQ q).re = q := rfl
@[simp] theorem ofQ_im (q : ℚ) : (ofQ q).im = 0 := rfl
@[simp] theorem conj_re (z : CQ) : (conj z).re = z.re := rfl
@[simp] theorem conj_im (z : CQ) : (conj z).im = -z.im := rfl

@[ext] theorem ext {z w : CQ} (hre : z.re = w.re) (him : z.im = w.im) : z = w := by
  cases z; cases w; cases hre; cases him; rfl

theorem normSq_pos {z : CQ} (hz : z ≠ 0) : 0 < z.re * z.re + z.im * z.im := by
  rcases lt_or_le 0 (z.re * z.re + z.im * z.im) with h | h
  · exact h
  · exfalso
    have hre : z.re = 0 := by nlinarith [mul_self_nonneg z.re, mul_self_nonneg z.im]
    have him : z.im = 0 := by nlinarith [mul_self_nonneg z.re, mul_self_nonneg z.im]
    exact hz (ext hre him)

instance commRing : CommRing CQ where
  add := (· + ·)
  add_assoc := by intros; ext <;> simp <;> ring
  zero := 0
  zero_add := by intros; ext <;> simp
  add_zero := by intros; ext <;> simp
  add_comm := by intros; ext <;> simp <;> ring
  mul := (· * ·)
  mul_assoc := by intros; ext <;> simp <;> ring
  one := 1
  one_mul := by intros; ext <;> simp
  mul_one := by intros; ext <;> simp
  left_distrib := by intros; ext <;> simp <;> ring
  right_distrib := by intros; ext <;> simp <;> ring
  mul_comm := by intros; ext <;> simp <;> ring
  neg := Neg.neg
  sub := Sub.sub
  sub_eq_add_neg := by intros; ext <;> simp <;> ring
  neg_add_cancel := by intros; ext <;> simp
  nsmul := fun n z => ⟨n * z.re, n * z.im⟩
  nsmul_zero := by intros; ext <;> simp
  nsmul_succ := by intros; ext <;> simp <;> ring
  zsmul := fun n z => ⟨n * z.re, n * z.im⟩
  zsmul_zero' := by intros; ext <;> simp
  zsmul_succ' := by intros; ext <;> push_cast <;> simp <;> ring
  zsmul_neg' := by intros; ext <;> push_cast <;> simp <;> ring
  zero_mul := by intros; ext <;> simp
  mul_zero := by intros; ext <;> simp

instance field : Field CQ where
  inv := Inv.inv
  exists_pair_ne := ⟨0, 1, by decide⟩
  mul_inv_cancel := by
    intro z hz
    have h := normSq_pos hz
    ext <;> simp <;> field_simp <;> ring
  inv_zero := by ext <;> simp
  nnqsmul := _
  qsmul := _

theorem add_conj (z : CQ) : z + conj z = ofQ (2 * z.re) := by
  ext <;> simp <;> ring

end CQ

theorem CQ.natCast_re (n : ℕ) : ((n : ℕ) : CQ).re = n := by
  induction n with
  | zero => rw [Nat.cast_zero]; rfl
  | succ k ih => rw [Nat.cast_succ]; simp [ih]

instance : CharZero CQ :=
  ⟨fun m n h => by
    have h2 := congrArg CQ.re h
    rw [CQ.natCast_re, CQ.natCast_re] at h2
    exact_mod_cast h2⟩

theorem CQ.natCast_im (n : ℕ) : ((n : ℕ) : CQ).im = 0 := by
  induction n with
  | zero => rw [Nat.cast_zero]; rfl
  | succ k ih => rw [Nat.cast_succ]; simp [ih]

@[simp] theorem CQ.re_ofNat (n : ℕ) [n.AtLeastTwo] : (no_index (OfNat.ofNat n) : CQ).re = OfNat.ofNat n := by
  show ((n : ℕ) : CQ).re = _
  rw [CQ.natCast_re]
  rfl

@[simp] theorem CQ.im_ofNat (n : ℕ) [n.AtLeastTwo] : (no_index (OfNat.ofNat n) : CQ).im = 0 := by
  show ((n : ℕ) : CQ).im = _
  rw [CQ.natCast_im]

theorem CQ.ofQ_ne_zero {q : ℚ} (h : q ≠ 0) : CQ.ofQ q ≠ 0 := by
  simp [CQ.ext_iff, h]

/-- A 2x2 complex matrix, one frequency point of a NetworkTrace: `a b / c d`
are the `[0][0], [0][1], [1][0], [1][1]` entries. -/
structure Mat2 where
  a : CQ
  b : CQ
  c : CQ
  d : CQ
  deriving DecidableEq, Repr

namespace Mat2

/-- Matrix product, the model of `np.dot` on two 2x2 matrices. -/
instance : Mul Mat2 :=
  ⟨fun m n => ⟨m.a * n.a + m.b * n.c, m.a * n.b + m.b * n.d,
               m.c * n.a + m.d * n.c, m.c * n.b + m.d * n.d⟩⟩

/-- The identity matrix. -/
instance : One Mat2 := ⟨⟨1, 0, 0, 1⟩⟩

@[simp] theorem mul_a (m n : Mat2) : (m * n).a = m.a * n.a + m.b * n.c := rfl
@[simp] theorem mul_b (m n : Mat2) : (m * n).b = m.a * n.b + m.b * n.d := rfl
@[simp] theorem mul_c (m n : Mat2) : (m * n).c = m.c * n.a + m.d * n.c := rfl
@[simp] theorem mul_d (m n : Mat2) : (m * n).d = m.c * n.b + m.d * n.d := rfl
@[simp] theorem one_a : (1 : Mat2).a = 1 := rfl
@[simp] theorem one_b : (1 : Mat2).b = 0 := rfl
@[simp] theorem one_c : (1 : Mat2).c = 0 := rfl
@[simp] theorem one_d : (1 : Mat2).d = 1 := rfl

@[ext] theorem ext4 {m n : Mat2} (ha : m.a = n.a) (hb : m.b = n.b)
    (hc : m.c = n.c) (hd : m.d = n.d) : m = n := by
  cases m; cases n; cases ha; cases hb; cases hc; cases hd; rfl

theorem mul_assoc (m n p : Mat2) : m * n * p = m * (n * p) := by
  ext <;> simp <;> ring

theorem one_mul (m : Mat2) : 1 * m = m := by ext <;> simp

theorem mul_one (m : Mat2) : m * 1 = m := by ext <;> simp

/-- Determinant of a 2x2 matrix. -/
def det (m : Mat2) : CQ := m.a * m.d - m.b * m.c

/-- Matrix inverse, the model of `numpy.linalg.inv`: `none` models the
`LinAlgError` numpy raises for a singular matrix. -/
def inv2 (m : Mat2) : Option Mat2 :=
  if m.det = 0 then none
  else some ⟨m.d / m.det, -m.b / m.det, -m.c / m.det, m.a / m.det⟩

theorem inv2_mul {m n : Mat2} (h : inv2 m = some n) : n * m = 1 ∧ m * n = 1 := by
  unfold inv2 at h
  by_cases hd : m.det = 0
  · simp [hd] at h
  · simp only [hd, if_false, Option.some.injEq] at h
    subst h
    simp only [det] at hd
    refine ⟨Mat2.ext4 ?_ ?_ ?_ ?_, Mat2.ext4 ?_ ?_ ?_ ?_⟩ <;>
      simp only [mul_a, mul_b, mul_c, mul_d, one_a, one_b, one_c, one_d, det] <;>
      field_simp <;> ring

theorem det_one : det 1 = 1 := by
  unfold det
  ext <;> simp

theorem inv2_one : inv2 1 = some 1 := by
  unfold inv2
  rw [det_one, if_neg one_ne_zero]
  norm_num [Mat2.ext4_iff, CQ.ext_iff]

end Mat2

/-!
Format Converter (`abcd2s`, `abcd2s_alt`, `sri2abcd`, `sri2abcd_alt`,
lines 402-516 of `src/extraction.py`).  All four functions loop over the
frequency points of the trace and apply the same arithmetic to each 2x2
matrix, so we define the per-point transform and obtain the trace-level
function as a `List.map`.

`np.sqrt(R01*R02)` is a float library call; its value is passed in as the
rational parameter `r` (a float is a rational).  `np.conj` is the exact
`CQ.conj`.  To reason about the conjugates algebraically the per-point
transforms are stated with the conjugate values `w1 = conj Z01`,
`w2 = conj Z02` as explicit arguments (`...W` forms); the `_point` wrappers
instantiate them with `CQ.conj`, exactly as the source writes
`np.conj(Z01)` inline.
-/

/-- Entry arithmetic of `sri2abcd` (lines 479-482), with `w1, w2` standing
for `np.conj(Z01)`, `np.conj(Z02)` and `r` for `np.sqrt(R01*R02)`. -/
def sri2abcdW (z1 w1 z2 w2 r : CQ) (m : Mat2) : Mat2 :=
  ⟨((w1 + m.a * z1) * (1 - m.d) + m.b * m.c * z1) / (2 * m.c * r),
   ((w1 + m.a * z1) * (w2 + m.d * z2) - m.b * m.c * z1 * z2) / (2 * m.c * r),
   ((1 - m.a) * (1 - m.d) - m.b * m.c) / (2 * m.c * r),
   ((1 - m.a) * (w2 + m.d * z2) + m.b * m.c * z2) / (2 * m.c * r)⟩

/-- One frequency point of `sri2abcd` (lines 463-489): S (real/imag) to ABCD,
general complex-impedance form.  The matrix entries are
`S11 = m.a`, `S12 = m.b`, `S21 = m.c`, `S22 = m.d`. -/
def sri2abcd_point (r : ℚ) (Z01 Z02 : CQ) (m : Mat2) : Mat2 :=
  sri2abcdW Z01 (CQ.conj Z01) Z02 (CQ.conj Z02) (CQ.ofQ r) m

/-- Entry arithmetic of `abcd2s` (lines 416-421), with `w1, w2` standing for
`np.conj(Z01)`, `np.conj(Z02)` and `r` for `np.sqrt(R01*R02)`. -/
def abcd2sW (z1 w1 z2 w2 r : CQ) (m : Mat2) : Mat2 :=
  ⟨(m.a * z2 + m.b - m.c * w1 * z2 - m.d * w1) / (m.a * z2 + m.b + m.c * z1 * z2 + m.d * z1),
   (2 * (m.a * m.d - m.b * m.c) * r) / (m.a * z2 + m.b + m.c * z1 * z2 + m.d * z1),
   (2 * r) / (m.a * z2 + m.b + m.c * z1 * z2 + m.d * z1),
   (-(m.a * w2) + m.b - m.c * z1 * w2 + m.d * z1) / (m.a * z2 + m.b + m.c * z1 * z2 + m.d * z1)⟩

/-- One frequency point of `abcd2s` (lines 402-429): ABCD to S (real/imag),
general complex-impedance form. -/
def abcd2s_point (r : ℚ) (Z01 Z02 : CQ) (m : Mat2) : Mat2 :=
  abcd2sW Z01 (CQ.conj Z01) Z02 (CQ.conj Z02) (CQ.ofQ r) m

/-- One frequency point of `sri2abcd_alt` (lines 491-516): S (real/imag) to
ABCD, real-impedance form with `Z0 = Z01`. -/
def sri2abcd_alt_point (Z0 : CQ) (m : Mat2) : Mat2 :=
  ⟨((1 + m.a) * (1 - m.d) + m.b * m.c) / (2 * m.c),
   Z0 * (((1 + m.a) * (1 + m.d) - m.b * m.c) / (2 * m.c)),
   ((1 - m.a) * (1 - m.d) - m.b * m.c) / (2 * m.c * Z0),
   ((1 - m.a) * (1 + m.d) + m.b * m.c) / (2 * m.c)⟩

/-- One frequency point of `abcd2s_alt` (lines 431-460): ABCD to S
(real/imag), real-impedance form with `Z0 = Z01`. -/
def abcd2s_alt_point (Z0 : CQ) (m : Mat2) : Mat2 :=
  ⟨(m.a + m.b / Z0 - m.c * Z0 - m.d) / (m.a + m.b / Z0 + m.c * Z0 + m.d),
   (2 * (m.a * m.d - m.b * m.c)) / (m.a + m.b / Z0 + m.c * Z0 + m.d),
   2 / (m.a + m.b / Z0 + m.c * Z0 + m.d),
   (-m.a + m.b / Z0 - m.c * Z0 + m.d) / (m.a + m.b / Z0 + m.c * Z0 + m.d)⟩

/-- Trace-level `sri2abcd` (the `for idx in range(len(s_struct))` loop). -/
def sri2abcd_trace (r : ℚ) (Z01 Z02 : CQ) (s : List Mat2) : List Mat2 :=
  s.map (sri2abcd_point r Z01 Z02)

/-- Trace-level `abcd2s`. -/
def abcd2s_trace (r : ℚ) (Z01 Z02 : CQ) (s : List Mat2) : List Mat2 :=
  s.map (abcd2s_point r Z01 Z02)

/-- Helper for cancelling a common denominator `d` of two fractions. -/
theorem div_frac_eq {u v d X s : CQ} (hd : d ≠ 0) (hX : X ≠ 0)
    (hv : v * d = X) (hu : u * d = s * X) : u / v = s := by
  have hv2 : v = X / d := by rw [eq_div_iff hd]; exact hv
  have hu2 : u = s * X / d := by rw [eq_div_iff hd]; exact hu
  rw [hu2, hv2]
  field_simp

set_option maxHeartbeats 1600000 in
/-- Core round-trip identity for the general-impedance pair, stated over the
conjugates `w1, w2` as free variables: the only facts used are `S21 ≠ 0`,
`r ≠ 0` and `(Z01 + w1)·(Z02 + w2) = 4·r²` (which holds when `wi = conj Zi`
and `r = sqrt(Re Z01 · Re Z02)`). -/
theorem sri_abcd_roundtrip_W (z1 w1 z2 w2 r s11 s12 s21 s22 : CQ)
    (h21 : s21 ≠ 0) (hr : r ≠ 0) (hsum : (z1 + w1) * (z2 + w2) = 4 * (r * r)) :
    abcd2sW z1 w1 z2 w2 r (sri2abcdW z1 w1 z2 w2 r ⟨s11, s12, s21, s22⟩) = ⟨s11, s12, s21, s22⟩ := by
  have hd1 : (2 : CQ) * s21 * r ≠ 0 := mul_ne_zero (mul_ne_zero two_ne_zero h21) hr
  have hX : (z1 + w1) * (z2 + w2) ≠ 0 := by
    rw [hsum]
    exact mul_ne_zero (by norm_num) (mul_ne_zero hr hr)
  have pa : (sri2abcdW z1 w1 z2 w2 r ⟨s11, s12, s21, s22⟩).a
      = ((w1 + s11 * z1) * (1 - s22) + s12 * s21 * z1) / (2 * s21 * r) := rfl
  have pb : (sri2abcdW z1 w1 z2 w2 r ⟨s11, s12, s21, s22⟩).b
      = ((w1 + s11 * z1) * (w2 + s22 * z2) - s12 * s21 * z1 * z2) / (2 * s21 * r) := rfl
  have pc : (sri2abcdW z1 w1 z2 w2 r ⟨s11, s12, s21, s22⟩).c
      = ((1 - s11) * (1 - s22) - s12 * s21) / (2 * s21 * r) := rfl
  have pd : (sri2abcdW z1 w1 z2 w2 r ⟨s11, s12, s21, s22⟩).d
      = ((1 - s11) * (w2 + s22 * z2) + s12 * s21 * z2) / (2 * s21 * r) := rfl
  have qa : ∀ m : Mat2, (abcd2sW z1 w1 z2 w2 r m).a
      = (m.a * z2 + m.b - m.c * w1 * z2 - m.d * w1)
        / (m.a * z2 + m.b + m.c * z1 * z2 + m.d * z1) := fun _ => rfl
  have qb : ∀ m : Mat2, (abcd2sW z1 w1 z2 w2 r m).b
      = (2 * (m.a * m.d - m.b * m.c) * r)
        / (m.a * z2 + m.b + m.c * z1 * z2 + m.d * z1) := fun _ => rfl
  have qc : ∀ m : Mat2, (abcd2sW z1 w1 z2 w2 r m).c
      = (2 * r) / (m.a * z2 + m.b + m.c * z1 * z2 + m.d * z1) := fun _ => rfl
  have qd : ∀ m : Mat2, (abcd2sW z1 w1 z2 w2 r m).d
      = (-(m.a * w2) + m.b - m.c * z1 * w2 + m.d * z1)
        / (m.a * z2 + m.b + m.c * z1 * z2 + m.d * z1) := fun _ => rfl
  refine Mat2.ext4 ?_ ?_ ?_ ?_
  · show _ = s11
    rw [qa, pa, pb, pc, pd]
    refine div_frac_eq hd1 hX ?_ ?_
    · field_simp
      ring
    · field_simp
      ring
  · show _ = s12
    rw [qb, pa, pb, pc, pd]
    refine div_frac_eq hd1 hX ?_ ?_
    · field_simp
      ring
    · field_simp
      ring
  · show _ = s21
    rw [qc, pa, pb, pc, pd]
    refine div_frac_eq hd1 hX ?_ ?_
    · field_simp
      ring
    · rw [hsum]
      ring
  · show _ = s22
    rw [qd, pa, pb, pc, pd]
    refine div_frac_eq hd1 hX ?_ ?_
    · field_simp
      ring
    · field_simp
      ring

set_option maxHeartbeats 1600000 in
/-- Round-trip identity for the real-impedance (`_alt`) pair: only `S21 ≠ 0`
and `Z0 ≠ 0` are needed. -/
theorem sri_abcd_alt_roundtrip (Z0 s11 s12 s21 s22 : CQ)
    (h21 : s21 ≠ 0) (hz : Z0 ≠ 0) :
    abcd2s_alt_point Z0 (sri2abcd_alt_point Z0 ⟨s11, s12, s21, s22⟩) = ⟨s11, s12, s21, s22⟩ := by
  have hd1 : (2 : CQ) * s21 ≠ 0 := mul_ne_zero two_ne_zero h21
  have hX : (4 : CQ) ≠ 0 := by norm_num
  have hbc : ∀ x y : CQ, Z0 * x * (y / Z0) = x * y := fun x y => by
    rw [mul_comm Z0 x, mul_assoc, ← mul_div_assoc, mul_div_cancel_left₀ _ hz]
  have pa : (sri2abcd_alt_point Z0 ⟨s11, s12, s21, s22⟩).a
      = ((1 + s11) * (1 - s22) + s12 * s21) / (2 * s21) := rfl
  have pb : (sri2abcd_alt_point Z0 ⟨s11, s12, s21, s22⟩).b
      = Z0 * (((1 + s11) * (1 + s22) - s12 * s21) / (2 * s21)) := rfl
  have pc : (sri2abcd_alt_point Z0 ⟨s11, s12, s21, s22⟩).c
      = ((1 - s11) * (1 - s22) - s12 * s21) / (2 * s21 * Z0) := rfl
  have pd : (sri2abcd_alt_point Z0 ⟨s11, s12, s21, s22⟩).d
      = ((1 - s11) * (1 + s22) + s12 * s21) / (2 * s21) := rfl
  have qa : ∀ m : Mat2, (abcd2s_alt_point Z0 m).a
      = (m.a + m.b / Z0 - m.c * Z0 - m.d) / (m.a + m.b / Z0 + m.c * Z0 + m.d) := fun _ => rfl
  have qb : ∀ m : Mat2, (abcd2s_alt_point Z0 m).b
      = (2 * (m.a * m.d - m.b * m.c)) / (m.a + m.b / Z0 + m.c * Z0 + m.d) := fun _ => rfl
  have qc : ∀ m : Mat2, (abcd2s_alt_point Z0 m).c
      = 2 / (m.a + m.b / Z0 + m.c * Z0 + m.d) := fun _ => rfl
  have qd : ∀ m : Mat2, (abcd2s_alt_point Z0 m).d
      = (-m.a + m.b / Z0 - m.c * Z0 + m.d) / (m.a + m.b / Z0 + m.c * Z0 + m.d) := fun _ => rfl
  refine Mat2.ext4 ?_ ?_ ?_ ?_
  · show _ = s11
    rw [qa, pa, pb, pc, pd]
    refine div_frac_eq hd1 hX ?_ ?_
    · rw [mul_div_cancel_left₀ _ hz, div_mul_eq_mul_div, mul_div_mul_right _ _ hz]
      field_simp
      ring
    · rw [mul_div_cancel_left₀ _ hz, div_mul_eq_mul_div, mul_div_mul_right _ _ hz]
      field_simp
      ring
  · show _ = s12
    rw [qb, pa, pb, pc, pd]
    refine div_frac_eq hd1 hX ?_ ?_
    · rw [mul_div_cancel_left₀ _ hz, div_mul_eq_mul_div, mul_div_mul_right _ _ hz]
      field_simp
      ring
    · rw [← div_div ((1 - s11) * (1 - s22) - s12 * s21) (2 * s21) Z0, hbc]
      field_simp
      ring
  · show _ = s21
    rw [qc, pa, pb, pc, pd]
    refine div_frac_eq hd1 hX ?_ ?_
    · rw [mul_div_cancel_left₀ _ hz, div_mul_eq_mul_div, mul_div_mul_right _ _ hz]
      field_simp
      ring
    · ring
  · show _ = s22
    rw [qd, pa, pb, pc, pd]
    refine div_frac_eq hd1 hX ?_ ?_
    · rw [mul_div_cancel_left₀ _ hz, div_mul_eq_mul_div, mul_div_mul_right _ _ hz]
      field_simp
      ring
    · rw [mul_div_cancel_left₀ _ hz, div_mul_eq_mul_div, mul_div_mul_right _ _ hz]
      field_simp
      ring

/-- Claim C3: for every non-degenerate 2x2 S matrix (S21 nonzero, conversion
denominators nonzero, expressed as `r ≠ 0` where `r² = Re Z01 · Re Z02` is
the value of `np.sqrt(R01*R02)`) and every reference impedance, converting
S to ABCD and back to S returns the original S matrix exactly, for both the
general-complex-impedance pair (`sri2abcd`/`abcd2s`) and the real-impedance
pair (`sri2abcd_alt`/`abcd2s_alt`). -/
theorem C3_s_abcd_roundtrip (rq : ℚ) (Z01 Z02 Z0 : CQ) (s t : Mat2)
    (h21 : s.c ≠ 0) (ht21 : t.c ≠ 0) (hr0 : rq ≠ 0)
    (hr2 : rq * rq = Z01.re * Z02.re) (hz : Z0 ≠ 0) :
    abcd2s_point rq Z01 Z02 (sri2abcd_point rq Z01 Z02 s) = s ∧
    abcd2s_alt_point Z0 (sri2abcd_alt_point Z0 t) = t := by
  obtain ⟨s11, s12, s21, s22⟩ := s
  obtain ⟨t11, t12, t21, t22⟩ := t
  constructor
  · have hsum : (Z01 + CQ.conj Z01) * (Z02 + CQ.conj Z02)
        = 4 * (CQ.ofQ rq * CQ.ofQ rq) := by
      rw [CQ.add_conj, CQ.add_conj]
      refine CQ.ext ?_ ?_
      · simp
        linear_combination (-4 : ℚ) * hr2
      · simp
    exact sri_abcd_roundtrip_W Z01 (CQ.conj Z01) Z02 (CQ.conj Z02) (CQ.ofQ rq)
      s11 s12 s21 s22 h21 (CQ.ofQ_ne_zero hr0) hsum
  · exact sri_abcd_alt_roundtrip Z0 t11 t12 t21 t22 ht21 hz

/-- Witness for C3 at `Z01 = Z02 = Z0 = 50`, `r = sqrt(50·50) = 50` and
concrete non-degenerate S matrices. -/
theorem C3_s_abcd_roundtrip_witness :
    abcd2s_point 50 (CQ.ofQ 50) (CQ.ofQ 50)
      (sri2abcd_point 50 (CQ.ofQ 50) (CQ.ofQ 50) ⟨⟨1/2, 1/3⟩, ⟨1/5, 1/7⟩, ⟨1/4, 1/9⟩, ⟨1/6, 1/11⟩⟩)
      = ⟨⟨1/2, 1/3⟩, ⟨1/5, 1/7⟩, ⟨1/4, 1/9⟩, ⟨1/6, 1/11⟩⟩ ∧
    abcd2s_alt_point (CQ.ofQ 50)
      (sri2abcd_alt_point (CQ.ofQ 50) ⟨⟨1/2, 1/3⟩, ⟨1/5, 1/7⟩, ⟨1/4, 1/9⟩, ⟨1/6, 1/11⟩⟩)
      = ⟨⟨1/2, 1/3⟩, ⟨1/5, 1/7⟩, ⟨1/4, 1/9⟩, ⟨1/6, 1/11⟩⟩ :=
  C3_s_abcd_roundtrip 50 (CQ.ofQ 50) (CQ.ofQ 50) (CQ.ofQ 50)
    ⟨⟨1/2, 1/3⟩, ⟨1/5, 1/7⟩, ⟨1/4, 1/9⟩, ⟨1/6, 1/11⟩⟩
    ⟨⟨1/2, 1/3⟩, ⟨1/5, 1/7⟩, ⟨1/4, 1/9⟩, ⟨1/6, 1/11⟩⟩
    (by norm_num [CQ.ext_iff]) (by norm_num [CQ.ext_iff]) (by norm_num)
    (by norm_num) (by norm_num [CQ.ext_iff])

/-!
Non-finite-aware arithmetic.  numpy floating arithmetic never raises on
division by zero: it produces Inf/NaN values and keeps going.  `Option CQ`
models a complex value that is either finite (`some z`) or non-finite
(`none`, covering NaN and Inf); division by a finite zero or by a
non-finite value yields a non-finite value, and every arithmetic operation
with a non-finite operand stays non-finite, matching IEEE semantics for
the operations the source performs.
-/

instance : Add (Option CQ) :=
  ⟨fun x y => do
    let a ← x
    let b ← y
    pure (a + b)⟩

instance : Sub (Option CQ) :=
  ⟨fun x y => do
    let a ← x
    let b ← y
    pure (a - b)⟩

instance : Mul (Option CQ) :=
  ⟨fun x y => do
    let a ← x
    let b ← y
    pure (a * b)⟩

instance : Neg (Option CQ) :=
  ⟨fun x => do
    let a ← x
    pure (-a)⟩

instance : Div (Option CQ) :=
  ⟨fun x y => do
    let a ← x
    let b ← y
    if b = 0 then none else pure (a / b)⟩

instance : Inv (Option CQ) :=
  ⟨fun x => do
    let a ← x
    if a = 0 then none else pure a⁻¹⟩

theorem nf_add_some (a b : CQ) : (some a + some b : Option CQ) = some (a + b) := rfl

theorem nf_mul_some (a b : CQ) : (some a * some b : Option CQ) = some (a * b) := rfl

theorem nf_div_some (a b : CQ) :
    (some a / some b : Option CQ) = if b = 0 then none else some (a / b) := rfl

theorem nf_inv_some (a : CQ) :
    (some a)⁻¹ = if a = 0 then none else (some a⁻¹ : Option CQ) := rfl

theorem nf_mul_none (x : Option CQ) : x * (none : Option CQ) = none := by
  cases x <;> rfl

theorem nf_none_mul (x : Option CQ) : (none : Option CQ) * x = none := rfl

theorem nf_div_none (x : Option CQ) : x / (none : Option CQ) = none := by
  cases x <;> rfl

theorem nf_none_div (x : Option CQ) : (none : Option CQ) / x = none := rfl

/-- A 2x2 matrix whose entries may be non-finite, the result type of the
conversions when modelling numpy NaN/Inf propagation. -/
structure Mat2NF where
  a : Option CQ
  b : Option CQ
  c : Option CQ
  d : Option CQ
  deriving DecidableEq, Repr

/-- Non-finite-aware model of one frequency point of `sri2abcd`
(lines 463-489).  The `r` argument is the value of `np.sqrt(R01*R02)`:
`none` when `R01*R02 < 0` (numpy `sqrt` of a negative float is NaN).  The
function always returns a matrix; no exception is raised anywhere in its
body (numpy division by zero only emits a warning). -/
def sri2abcdNF_point (r : Option ℚ) (Z01 Z02 : CQ) (m : Mat2) : Mat2NF :=
  let w1 := CQ.conj Z01
  let w2 := CQ.conj Z02
  let denom : Option CQ := some (2 * m.c) * (r.map CQ.ofQ)
  ⟨some ((w1 + m.a * Z01) * (1 - m.d) + m.b * m.c * Z01) / denom,
   some ((w1 + m.a * Z01) * (w2 + m.d * Z02) - m.b * m.c * Z01 * Z02) / denom,
   some ((1 - m.a) * (1 - m.d) - m.b * m.c) / denom,
   some ((1 - m.a) * (w2 + m.d * Z02) + m.b * m.c * Z02) / denom⟩

/-- Non-finite-aware model of one frequency point of `sri2abcd_alt`
(lines 491-516), real-impedance form with `Z0 = Z01`. -/
def sri2abcd_altNF_point (Z0 : CQ) (m : Mat2) : Mat2NF :=
  ⟨some ((1 + m.a) * (1 - m.d) + m.b * m.c) / some (2 * m.c),
   some Z0 * (some ((1 + m.a) * (1 + m.d) - m.b * m.c) / some (2 * m.c)),
   some ((1 - m.a) * (1 - m.d) - m.b * m.c) / some (2 * m.c * Z0),
   some ((1 - m.a) * (1 + m.d) + m.b * m.c) / some (2 * m.c)⟩

/-- Counterexample to C4 as stated: at the all-zero S matrix (so `S21 = 0`)
with reference impedances 50 and `r = np.sqrt(50*50) = 50`, both S-to-ABCD
conversions return a matrix (every entry non-finite) — no
`SingularNetworkError` exists anywhere in the source, and no exception is
raised: the function does return a result. -/
theorem C4_sri2abcd_returns_on_zero_S21 :
    sri2abcdNF_point (some 50) (CQ.ofQ 50) (CQ.ofQ 50) ⟨0, 0, 0, 0⟩
      = ⟨none, none, none, none⟩ ∧
    sri2abcd_altNF_point (CQ.ofQ 50) ⟨0, 0, 0, 0⟩ = ⟨none, none, none, none⟩ := by
  constructor
  · show Mat2NF.mk _ _ _ _ = _
    have hd : (some (2 * (0 : CQ)) * ((some (50 : ℚ)).map CQ.ofQ) : Option CQ)
        = some 0 := by
      simp [nf_mul_some]
    simp only [sri2abcdNF_point, hd]
    simp [nf_div_some]
  · show Mat2NF.mk _ _ _ _ = _
    simp only [sri2abcd_altNF_point]
    have h0 : (2 * (0 : CQ)) = 0 := by ext <;> simp
    have h0z : (2 * (0 : CQ) * CQ.ofQ 50) = 0 := by ext <;> simp
    simp [h0, h0z, nf_div_some, nf_mul_none]

/-- Claim C4 (amended): with `S21 = 0` the S-to-ABCD conversions do not
fail: they return normally, and every entry of the returned matrix is
non-finite (NaN/Inf, modelled `none`) — for any `r` (finite or NaN), any
reference impedances, and both variants. -/
theorem C4_zero_S21_gives_nonfinite (r : Option ℚ) (Z01 Z02 Z0 : CQ) (m : Mat2)
    (hc : m.c = 0) :
    sri2abcdNF_point r Z01 Z02 m = ⟨none, none, none, none⟩ ∧
    sri2abcd_altNF_point Z0 m = ⟨none, none, none, none⟩ := by
  have h2c : (2 * m.c) = 0 := by rw [hc]; ext <;> simp
  constructor
  · have hd : (some (2 * m.c) * (r.map CQ.ofQ) : Option CQ) = some 0 ∨
        (some (2 * m.c) * (r.map CQ.ofQ) : Option CQ) = none := by
      cases r with
      | none => right; rfl
      | some q =>
        left
        rw [Option.map_some']
        rw [nf_mul_some, h2c]
        congr 1
        ext <;> simp
    simp only [sri2abcdNF_point]
    rcases hd with hd | hd <;> rw [hd] <;>
      simp [nf_div_some, nf_div_none]
  · simp only [sri2abcd_altNF_point]
    have h2cz : (2 * m.c * Z0) = 0 := by rw [h2c]; ext <;> simp
    simp [h2c, h2cz, nf_div_some, nf_mul_none]

/-- Witness for (amended) C4 at the identity S matrix, whose `S21` entry is
zero, with `r = 50` and 50-ohm references. -/
theorem C4_zero_S21_gives_nonfinite_witness :
    sri2abcdNF_point (some 50) (CQ.ofQ 50) (CQ.ofQ 50) ⟨1, 0, 0, 1⟩
      = ⟨none, none, none, none⟩ ∧
    sri2abcd_altNF_point (CQ.ofQ 50) ⟨1, 0, 0, 1⟩ = ⟨none, none, none, none⟩ :=
  C4_zero_S21_gives_nonfinite (some 50) (CQ.ofQ 50) (CQ.ofQ 50) (CQ.ofQ 50)
    ⟨1, 0, 0, 1⟩ rfl

/-!
Extraction dispatcher (`extract_rlcg_from_measurement`, lines 659-678).
The function first de-embeds (or converts) the DUT data, then selects the
extraction routine by comparing the `method` string.  The comparisons in
the source are, in order: `"distributed"` (calls
`distributed_rlgc_from_sdb`), `"lumped"` (calls
`lumped_rlgc_from_Network`), `"distributed_abcd"` (calls
`distributed_rlgc_from_abcd`), and `"distributed_ri"` (calls
`distributed_rlgc_from_sdb` with `Sri_dut` and `z0_probe` in the `Sdb` and
`Sdeg` positions).  There is no `else` branch: any other string reaches
`return (freq, R, L, G, C)` with `R`...`C` unbound, raising
`UnboundLocalError` (modelled `none`).  No `UnsupportedMethodError` class
exists anywhere in the source.
-/

inductive RlgcBranch where
  | distributedSdb
  | lumped
  | distributedAbcd
  | distributedRi
  deriving DecidableEq, Repr

/-- The method-string dispatch of `extract_rlcg_from_measurement`
(lines 668-677): which extraction branch runs for a given method string. -/
def extract_rlcg_dispatch (method : String) : Option RlgcBranch :=
  if method = "distributed" then some RlgcBranch.distributedSdb
  else if method = "lumped" then some RlgcBranch.lumped
  else if method = "distributed_abcd" then some RlgcBranch.distributedAbcd
  else if method = "distributed_ri" then some RlgcBranch.distributedRi
  else none

/-- Claim C2 fails on the code: the dispatcher recognises
`distributed_ri`, not `distributed_sri`, although `main()` offers
`distributed_sri` as an argparse choice; `distributed_sri` (and every other
unlisted string) matches no branch, so the final `return` raises
`UnboundLocalError` — there is no `UnsupportedMethodError` anywhere. -/
theorem C2_dispatch_sri_unhandled :
    extract_rlcg_dispatch "distributed" = some RlgcBranch.distributedSdb ∧
    extract_rlcg_dispatch "lumped" = some RlgcBranch.lumped ∧
    extract_rlcg_dispatch "distributed_abcd" = some RlgcBranch.distributedAbcd ∧
    extract_rlcg_dispatch "distributed_ri" = some RlgcBranch.distributedRi ∧
    extract_rlcg_dispatch "distributed_sri" = none ∧
    extract_rlcg_dispatch "unsupported_xyz" = none :=
  ⟨rfl, rfl, rfl, rfl, rfl, rfl⟩

/-!
De-embedding (`deembed_pads_from_measurement`, lines 642-655).  The loop
body is `np.dot(Pinv, np.dot(abcd_dut, Pinv))` — note `abcd_dut`, the
whole `(N,2,2)` DUT trace, not `abcd_dut[idx]` (the `idx` bound by
`enumerate` is never used in the body).  By numpy `dot` broadcasting this
produces, for each pad-inverse entry `Pinv`, a `(2,N,2)` ndarray `T` with
`T[i][g][j] = (Pinv · abcd_dut[g] · Pinv)[i][j]`.  We represent that
ndarray by the length-`N` list of 2x2 matrices `g ↦ Pinv * (abcd_dut[g] *
Pinv)` (stack axis outermost).  The function also returns S-parameter
conversions of the raw, NON-de-embedded `abcd_dut` (lines 651-652); those
reuse `abcd2s`/`sri2sdb` and are not part of claim C1.
-/
def deembed_pads_from_measurement (abcd_pad_inv abcd_dut : List Mat2) :
    List (List Mat2) :=
  abcd_pad_inv.map (fun Pinv => abcd_dut.map (fun M => Pinv * (M * Pinv)))

/-- Per-frequency de-embedding as the spec states it:
`M_dut_deembedded(f) = P_inv(f) · M_dut(f) · P_inv(f)`. -/
def deembed_spec (abcd_pad_inv abcd_dut : List Mat2) : List Mat2 :=
  List.zipWith (fun Pinv M => Pinv * (M * Pinv)) abcd_pad_inv abcd_dut

/-- Claim C1 fails on the code: with identity pad inverses and two DUT
traces that agree at frequency index 0 but differ at index 1, the code's
output at index 0 differs — the 0-th output entry depends on the 1-st DUT
entry, because the loop contracts `np.dot` over the whole DUT trace
instead of indexing it. -/
theorem C1_deembed_mixes_frequencies :
    [(1 : Mat2), (1 : Mat2)].get? 0 = [(1 : Mat2), (⟨2, 0, 0, 2⟩ : Mat2)].get? 0 ∧
    (deembed_pads_from_measurement [1, 1] [(1 : Mat2), (1 : Mat2)]).get? 0
      ≠ (deembed_pads_from_measurement [1, 1] [(1 : Mat2), (⟨2, 0, 0, 2⟩ : Mat2)]).get? 0 := by
  constructor
  · rfl
  · intro h
    simp only [deembed_pads_from_measurement, List.map_cons, List.map_nil,
      List.get?] at h
    have h2 := congrArg (fun l => (l.getD [] ).get? 1) h
    simp only [Option.getD_some, List.get?] at h2
    have h3 := congrArg (fun m => (m.getD 1).a) h2
    simp only [Option.getD_some] at h3
    simp [Mat2.mul_a, Mat2.one_mul] at h3

/-!
Real-valued non-finite-aware arithmetic (`Option ℚ`), used for the R, L,
G, C, loss-tangent outputs: numpy float division by zero yields Inf/NaN
(`none`), never an exception.
-/

instance : Mul (Option ℚ) :=
  ⟨fun x y => do
    let a ← x
    let b ← y
    pure (a * b)⟩

instance : Div (Option ℚ) :=
  ⟨fun x y => do
    let a ← x
    let b ← y
    if b = 0 then none else pure (a / b)⟩

theorem q_mul_some (a b : ℚ) : (some a * some b : Option ℚ) = some (a * b) := rfl

theorem q_div_some (a b : ℚ) :
    (some a / some b : Option ℚ) = if b = 0 then none else some (a / b) := rfl

theorem q_mul_none (x : Option ℚ) : x * (none : Option ℚ) = none := by
  cases x <;> rfl

theorem q_none_mul (x : Option ℚ) : (none : Option ℚ) * x = none := rfl

theorem q_div_none (x : Option ℚ) : x / (none : Option ℚ) = none := by
  cases x <;> rfl

theorem q_none_div (x : Option ℚ) : (none : Option ℚ) / x = none := rfl

theorem q_div_zero (x : Option ℚ) : x / (some 0 : Option ℚ) = none := by
  cases x with
  | none => rfl
  | some v => rw [q_div_some, if_pos rfl]

/-- Real part of a possibly non-finite complex value. -/
def nfRe (x : Option CQ) : Option ℚ := x.map CQ.re

/-- Imaginary part of a possibly non-finite complex value. -/
def nfIm (x : Option CQ) : Option ℚ := x.map CQ.im

@[simp] theorem nfRe_some (z : CQ) : nfRe (some z) = some z.re := rfl
@[simp] theorem nfRe_none : nfRe none = none := rfl
@[simp] theorem nfIm_some (z : CQ) : nfIm (some z) = some z.im := rfl
@[simp] theorem nfIm_none : nfIm none = none := rfl

theorem nf_inv_mul_eq_div (b s : CQ) :
    (some b)⁻¹ * some s = (some s / some b : Option CQ) := by
  by_cases hb : b = 0
  · simp [nf_inv_some, nf_div_some, hb, nf_none_mul]
  · simp [nf_inv_some, nf_div_some, hb, nf_mul_some]
    rw [div_eq_mul_inv, mul_comm]

/-!
Distributed RLGC extraction from ABCD (`distributed_rlgc_from_abcd`,
lines 234-277).  Per frequency index the loop reads `D = abcd[1][1]` and
`Bc = abcd[1][0]` (the chain parameter conventionally called C), computes
`gamma = 1/length_m * np.arccosh(D)` and `Zc = Bc**(-1) *
np.sinh(gamma*length_m)`, and fills the output arrays.  `np.arccosh` and
`np.sinh` (finite-valued on finite inputs) are the opaque parameters
`acoshF`, `sinhF`; `attF` models the composite `w ↦
np.log10(abs(np.exp(-w)))` (finite for every finite `w` since `exp` never
vanishes); `piQ` is the float constant `math.pi`.  `Bc**(-1)` for `Bc = 0`
is non-finite, hence the `Option`-valued `Zc` and R/L/G/C/loss-tangent.
The function builds and returns all arrays unconditionally — there is no
error path in the source (`length_m = 0` aside, which Python's scalar
`1/length_m` would reject before the trace is touched). -/
structure RlgcPoint where
  gamma : CQ
  Zc : Option CQ
  R : Option ℚ
  L : Option ℚ
  G : Option ℚ
  C : Option ℚ
  losstan : Option ℚ
  attenuation : ℚ
  deriving DecidableEq, Repr

/-- One loop iteration of `distributed_rlgc_from_abcd` (lines 251-266). -/
def rlgc_point_from_abcd (acoshF sinhF : CQ → CQ) (attF : CQ → ℚ)
    (piQ length_m f : ℚ) (abcd : Mat2) : RlgcPoint :=
  let d := abcd.d
  let b := abcd.c
  let gamma := CQ.ofQ (1 / length_m) * acoshF d
  let Zc : Option CQ := (some b)⁻¹ * some (sinhF (gamma * CQ.ofQ length_m))
  let gz : Option CQ := some gamma * Zc
  let gdz : Option CQ := some gamma / Zc
  let lfac : Option ℚ := some (1 / 2 / piQ) / some f
  { gamma := gamma
    Zc := Zc
    R := nfRe gz
    L := lfac * nfIm gz
    G := nfRe gdz
    C := lfac * nfIm gdz
    losstan := nfRe gdz / nfIm gdz
    attenuation := 20 * attF (gamma * CQ.ofQ length_m) }

/-- `distributed_rlgc_from_abcd` over the whole trace: the loop runs over
the trace indices reading `freq[idx]` alongside (index alignment modelled
by `zip`). -/
def distributed_rlgc_from_abcd (acoshF sinhF : CQ → CQ) (attF : CQ → ℚ)
    (piQ length_m : ℚ) (freq : List ℚ) (trace : List Mat2) : List RlgcPoint :=
  (trace.zip freq).map
    (fun p => rlgc_point_from_abcd acoshF sinhF attF piQ length_m p.2 p.1)

theorem zip_map_get {α β γ : Type _} (f : α → β → γ) :
    ∀ (xs : List α) (ys : List β) (i : ℕ) (x : α) (y : β),
      xs.get? i = some x → ys.get? i = some y →
      ((xs.zip ys).map (fun p => f p.1 p.2)).get? i = some (f x y)
  | [], _, i, _, _, hx, _ => by simp at hx
  | _ :: _, [], i, _, _, _, hy => by simp at hy
  | a :: as, b :: bs, 0, x, y, hx, hy => by
    simp only [List.get?] at hx hy
    cases hx
    cases hy
    rfl
  | a :: as, b :: bs, i + 1, x, y, hx, hy => by
    simp only [List.get?] at hx hy
    have ih := zip_map_get f as bs i x y hx hy
    simpa [List.zip_cons_cons] using ih

theorem lfac_mul_eq (piQ f : ℚ) (hpi : piQ ≠ 0) (x : Option ℚ) :
    (some (1 / 2 / piQ) / some f : Option ℚ) * x = x / some (2 * piQ * f) := by
  cases x with
  | none => rw [q_mul_none, q_none_div]
  | some v =>
    by_cases hf : f = 0
    · subst hf
      rw [q_div_some]
      simp [q_none_mul, q_div_some]
    · rw [q_div_some, if_neg hf, q_mul_some, q_div_some,
        if_neg (by exact mul_ne_zero (mul_ne_zero two_ne_zero hpi) hf)]
      congr 1
      field_simp

/-- Claim C6: per frequency point the distributed-from-ABCD extractor
computes `γ = (1/ℓ)·arccosh(D)` with `D = abcd[1][1]`,
`Zc = sinh(γ·ℓ)/Bc` with `Bc = abcd[1][0]`, and returns `R = Re(γ·Zc)`,
`L = Im(γ·Zc)/(2π·f)`, `G = Re(γ/Zc)`, `C = Im(γ/Zc)/(2π·f)`; `acoshF`
and `sinhF` stand for `np.arccosh` and `np.sinh` and `piQ` for `math.pi`
(`piQ ≠ 0` since `math.pi` is a fixed nonzero constant). -/
theorem C6_distributed_abcd_formulas (acoshF sinhF : CQ → CQ) (attF : CQ → ℚ)
    (piQ length_m f : ℚ) (freq : List ℚ) (trace : List Mat2) (i : ℕ)
    (m : Mat2) (pt : RlgcPoint) (hl : 0 < length_m) (hpi : piQ ≠ 0)
    (hm : trace.get? i = some m) (hf : freq.get? i = some f)
    (hpt : (distributed_rlgc_from_abcd acoshF sinhF attF piQ length_m freq trace).get? i
      = some pt) :
    pt.gamma = CQ.ofQ (1 / length_m) * acoshF m.d ∧
    pt.Zc = some (sinhF (pt.gamma * CQ.ofQ length_m)) / some m.c ∧
    pt.R = nfRe (some pt.gamma * pt.Zc) ∧
    pt.L = nfIm (some pt.gamma * pt.Zc) / some (2 * piQ * f) ∧
    pt.G = nfRe (some pt.gamma / pt.Zc) ∧
    pt.C = nfIm (some pt.gamma / pt.Zc) / some (2 * piQ * f) := by
  have h2 := zip_map_get
    (fun (x : Mat2) (y : ℚ) => rlgc_point_from_abcd acoshF sinhF attF piQ length_m y x)
    trace freq i m f hm hf
  have h3 : some (rlgc_point_from_abcd acoshF sinhF attF piQ length_m f m) = some pt :=
    Eq.trans h2.symm hpt
  have h4 := Option.some.inj h3
  subst h4
  refine ⟨rfl, ?_, rfl, ?_, rfl, ?_⟩
  · exact nf_inv_mul_eq_div _ _
  · exact lfac_mul_eq piQ f hpi _
  · exact lfac_mul_eq piQ f hpi _

/-- Witness for C6 with `arccosh` and `sinh` instantiated by the constant
zero function, `π := 3`, length 1, a single frequency point `f = 1` и the
ABCD matrix with `Bc = 1`, `D = 0`. -/
theorem C6_distributed_abcd_formulas_witness :
    (0 : CQ) = CQ.ofQ (1 / 1) * (0 : CQ) ∧
    (some (0 : CQ) : Option CQ) = some (0 : CQ) / some (CQ.ofQ 1) ∧
    (some (0 : ℚ) : Option ℚ) = nfRe (some (0 : CQ) * (some (0 : CQ) : Option CQ)) ∧
    (some (0 : ℚ) : Option ℚ)
      = nfIm (some (0 : CQ) * (some (0 : CQ) : Option CQ)) / some (2 * 3 * 1 : ℚ) ∧
    (none : Option ℚ) = nfRe (some (0 : CQ) / (some (0 : CQ) : Option CQ)) ∧
    (none : Option ℚ)
      = nfIm (some (0 : CQ) / (some (0 : CQ) : Option CQ)) / some (2 * 3 * 1 : ℚ) :=
  C6_distributed_abcd_formulas (fun _ => 0) (fun _ => 0) (fun _ => 0) 3 1 1
    [1] [⟨0, 0, CQ.ofQ 1, 0⟩] 0 ⟨0, 0, CQ.ofQ 1, 0⟩
    ⟨0, some 0, some 0, some 0, none, none, none, 0⟩
    (by norm_num) (by norm_num) rfl rfl
    (by
      simp only [distributed_rlgc_from_abcd, List.zip_cons_cons, List.zip_nil_right,
        List.map_cons, List.map_nil, List.get?]
      congr 1
      simp only [rlgc_point_from_abcd]
      have hg : CQ.ofQ (1 / 1) * (0 : CQ) = 0 := by ext <;> simp
      have hz1 : CQ.ofQ 1 ≠ 0 := CQ.ofQ_ne_zero one_ne_zero
      rw [hg]
      simp [nf_inv_some, hz1, nf_mul_some, nf_div_some, q_mul_some, q_div_some,
        q_mul_none, q_none_div, q_div_none])

theorem rlgc_from_abcd_eval_zero_Bc :
    distributed_rlgc_from_abcd (fun _ => 0) (fun _ => 0) (fun _ => 0) 3 1
      [1] [⟨0, 0, 0, 0⟩]
      = [⟨0, none, none, none, none, none, none, 0⟩] := by
  simp only [distributed_rlgc_from_abcd, List.zip_cons_cons, List.zip_nil_right,
    List.map_cons, List.map_nil]
  congr 1
  simp only [rlgc_point_from_abcd]
  have hg : CQ.ofQ (1 / 1) * (0 : CQ) = 0 := by ext <;> simp
  rw [hg]
  simp [nf_inv_some, nf_none_mul, nf_mul_none, nf_div_none, q_mul_none,
    q_none_div, q_div_none, q_none_mul]

/-- Counterexample to C5 as stated: at a frequency point with `Bc = 0` the
extractor returns a full result whose R, L, G, C, Zc, loss-tangent entries
at that point are non-finite (NaN/Inf) — no `DegenerateStructureError`
exists in the source, and no exception interrupts the computation. -/
theorem C5_returns_nan_on_zero_Bc :
    distributed_rlgc_from_abcd (fun _ => 0) (fun _ => 0) (fun _ => 0) 3 1
      [1] [⟨0, 0, 0, 0⟩]
      = [⟨0, none, none, none, none, none, none, 0⟩] :=
  rlgc_from_abcd_eval_zero_Bc

/-- Claim C5 (amended): a zero denominator does not raise anything — with
`Bc = 0` at a frequency point the extractor still returns, and the `Zc`,
`R`, `L`, `G`, `C` and loss-tangent values at that point are all
non-finite; likewise when `Im(γ/Zc)` is zero the loss tangent is
non-finite (float division by zero), for every instantiation of the
transcendental parameters. -/
theorem C5_zero_denominator_nonfinite (acoshF sinhF : CQ → CQ) (attF : CQ → ℚ)
    (piQ length_m f : ℚ) (freq : List ℚ) (trace : List Mat2) (i : ℕ)
    (m : Mat2) (pt : RlgcPoint)
    (hm : trace.get? i = some m) (hf : freq.get? i = some f)
    (hpt : (distributed_rlgc_from_abcd acoshF sinhF attF piQ length_m freq trace).get? i
      = some pt) :
    (m.c = 0 → pt.Zc = none ∧ pt.R = none ∧ pt.L = none ∧ pt.G = none ∧
      pt.C = none ∧ pt.losstan = none) ∧
    (nfIm (some pt.gamma / pt.Zc) = some 0 → pt.losstan = none) := by
  have h2 := zip_map_get
    (fun (x : Mat2) (y : ℚ) => rlgc_point_from_abcd acoshF sinhF attF piQ length_m y x)
    trace freq i m f hm hf
  have h3 : some (rlgc_point_from_abcd acoshF sinhF attF piQ length_m f m) = some pt :=
    Eq.trans h2.symm hpt
  have h4 := Option.some.inj h3
  subst h4
  constructor
  · intro hc
    have hZc : (rlgc_point_from_abcd acoshF sinhF attF piQ length_m f m).Zc = none := by
      simp only [rlgc_point_from_abcd, hc]
      rw [nf_inv_some, if_pos rfl, nf_none_mul]
    refine ⟨hZc, ?_, ?_, ?_, ?_, ?_⟩ <;>
      simp only [rlgc_point_from_abcd, hc] <;>
      rw [nf_inv_some, if_pos rfl, nf_none_mul] <;>
      simp [nf_mul_none, nf_div_none, q_mul_none, q_none_div, q_div_none]
  · intro him
    simp only [rlgc_point_from_abcd] at him ⊢
    rw [him]
    exact q_div_zero _

/-- Witness for (amended) C5 at the single-point trace whose ABCD matrix
has `Bc = 0`. -/
theorem C5_zero_denominator_nonfinite_witness :
    ((0 : CQ) = 0 → (none : Option CQ) = none ∧ (none : Option ℚ) = none ∧
      (none : Option ℚ) = none ∧ (none : Option ℚ) = none ∧
      (none : Option ℚ) = none ∧ (none : Option ℚ) = none) ∧
    (nfIm (some (0 : CQ) / (none : Option CQ)) = some 0 →
      (none : Option ℚ) = none) :=
  C5_zero_denominator_nonfinite (fun _ => 0) (fun _ => 0) (fun _ => 0) 3 1 1
    [1] [⟨0, 0, 0, 0⟩] 0 ⟨0, 0, 0, 0⟩
    ⟨0, none, none, none, none, none, none, 0⟩
    rfl rfl
    (by rw [rlgc_from_abcd_eval_zero_Bc]; rfl)

/-!
Pad extraction (`get_pad_abcd`, lines 608-638).  After converting the L
and 2L calibration files to ABCD traces the function iterates across
frequency points: `abcd_L_inv = la.inv(abcd_L_mat)`, `abcd_P_squared =
la.inv(np.dot(abcd_L_inv, np.dot(abcd_2L_mat, abcd_L_inv)))`, `abcd_P =
sla.sqrtm(abcd_P_squared)`, `abcd_P_inv = la.inv(abcd_P)`, appending to
the `abcd_pad` and `abcd_pad_inv` lists.  `sla.sqrtm` (scipy's principal
matrix square root) is the opaque parameter `sqrtm`; `la.inv` on a
singular matrix raises `LinAlgError`, modelled by `Mat2.inv2` returning
`none`, which aborts the whole extraction (`none` result).  Reading
`abcd_2L[idx]` past the end of a shorter 2L trace raises `IndexError`
(`none`).  The S-parameter reporting outputs of lines 632-637 reuse
`abcd2s`/`sri2sdb` (embedded separately) and the external skrf network
constructor.
-/

/-- One frequency point of the pad-extraction loop (lines 621-630). -/
def pad_point (sqrtm : Mat2 → Mat2) (ml m2l : Mat2) : Option (Mat2 × Mat2) := do
  let MLinv ← Mat2.inv2 ml
  let PP ← Mat2.inv2 (MLinv * (m2l * MLinv))
  let P := sqrtm PP
  let Pinv ← Mat2.inv2 P
  pure (P, Pinv)

/-- The same point computation written from the spec's steps 2-5
(`P² = inverse(M_L_inv · M_2L · M_L_inv)` with the conventional
left-associated product). -/
def pad_point_spec (sqrtm : Mat2 → Mat2) (ml m2l : Mat2) : Option (Mat2 × Mat2) := do
  let MLinv ← Mat2.inv2 ml
  let PP ← Mat2.inv2 (MLinv * m2l * MLinv)
  let P := sqrtm PP
  let Pinv ← Mat2.inv2 P
  pure (P, Pinv)

/-- The frequency loop of `get_pad_abcd`, collecting the pad trace and its
inverse trace. -/
def get_pad_abcd_core (sqrtm : Mat2 → Mat2) :
    List Mat2 → List Mat2 → Option (List Mat2 × List Mat2)
  | [], _ => some ([], [])
  | ml :: rest, m2l :: rest2 => do
    let pq ← pad_point sqrtm ml m2l
    let tail ← get_pad_abcd_core sqrtm rest rest2
    pure (pq.1 :: tail.1, pq.2 :: tail.2)
  | _ :: _, [] => none

theorem pad_point_id (sqrtm : Mat2 → Mat2) (hsq : sqrtm 1 = 1) (M : Mat2)
    (hdet : M.det ≠ 0) : pad_point sqrtm M (M * M) = some (1, 1) := by
  obtain ⟨n, hn⟩ : ∃ n, Mat2.inv2 M = some n := by
    unfold Mat2.inv2
    rw [if_neg hdet]
    exact ⟨_, rfl⟩
  obtain ⟨h1, h2⟩ := Mat2.inv2_mul hn
  have hmid : n * (M * M * n) = 1 := by
    rw [Mat2.mul_assoc, h2, Mat2.mul_one, h1]
  unfold pad_point
  rw [hn]
  simp only [Option.bind_eq_bind, Option.some_bind]
  rw [hmid, Mat2.inv2_one]
  simp only [Option.some_bind]
  rw [hsq, Mat2.inv2_one]
  rfl

theorem get_pad_abcd_core_id (sqrtm : Mat2 → Mat2) (hsq : sqrtm 1 = 1) :
    ∀ line : List Mat2, (∀ M ∈ line, M.det ≠ 0) →
      get_pad_abcd_core sqrtm line (line.map (fun M => M * M))
        = some (line.map (fun _ => 1), line.map (fun _ => 1))
  | [], _ => rfl
  | M :: rest, hdet => by
    have hM := hdet M (List.mem_cons_self M rest)
    have hrest := get_pad_abcd_core_id sqrtm hsq rest
      (fun N hN => hdet N (List.mem_cons_of_mem _ hN))
    simp only [List.map_cons, get_pad_abcd_core]
    rw [pad_point_id sqrtm hsq M hM, hrest]
    rfl

/-- Claim C9: per frequency point the pad extractor computes
`M_L_inv = inverse(M_L)`, then `P² = inverse(M_L_inv · M_2L · M_L_inv)`,
then `P = sqrtm(P²)` (the principal matrix square root), then
`P_inv = inverse(P)`, returning the traces of `P` and `P_inv` (first
conjunct, equality with the spec-side step list); and when the L and 2L
traces come from a pad-free line (`M_L = M_line`, `M_2L = M_line²`,
`M_line` invertible — the pad is the identity network, with
`sqrtm 1 = 1` the principal-branch value at the identity), the returned
pad ABCD and its inverse are the identity matrix at every frequency. -/
theorem C9_get_pad_abcd (sqrtm : Mat2 → Mat2) (line : List Mat2)
    (hsq : sqrtm 1 = 1) (hdet : ∀ M ∈ line, M.det ≠ 0) :
    (∀ ml m2l, pad_point sqrtm ml m2l = pad_point_spec sqrtm ml m2l) ∧
    get_pad_abcd_core sqrtm line (line.map (fun M => M * M))
      = some (line.map (fun _ => 1), line.map (fun _ => 1)) := by
  constructor
  · intro ml m2l
    unfold pad_point pad_point_spec
    simp only [Mat2.mul_assoc]
  · exact get_pad_abcd_core_id sqrtm hsq line hdet

/-- Witness for C9: `sqrtm` instantiated by the identity function (which
maps the identity matrix to itself, as the principal square root does) on
the one-point line trace `[[1,1],[0,1]]`. -/
theorem C9_get_pad_abcd_witness :
    (∀ ml m2l, pad_point (fun M => M) ml m2l = pad_point_spec (fun M => M) ml m2l) ∧
    get_pad_abcd_core (fun M => M) [(⟨1, 1, 0, 1⟩ : Mat2)]
      ([(⟨1, 1, 0, 1⟩ : Mat2)].map (fun M => M * M))
      = some ([(⟨1, 1, 0, 1⟩ : Mat2)].map (fun _ => 1),
              [(⟨1, 1, 0, 1⟩ : Mat2)].map (fun _ => 1)) :=
  C9_get_pad_abcd (fun M => M) [⟨1, 1, 0, 1⟩] rfl
    (by
      intro M hM
      simp only [List.mem_singleton] at hM
      subst hM
      norm_num [Mat2.det, CQ.ext_iff])

/-!
Degree/dB to real/imag and the fixed-impedance ABCD path
(`sdb2sri`, lines 519-547, and `sdb2abcd`, lines 551-556).  `math.cos`,
`math.sin` and the float power `10**x` are the opaque parameters `cosF`,
`sinF`, `tpow`; `piQ` is `math.pi`.
-/

/-- A 2x2 real matrix (dB or degree values). -/
structure QMat2 where
  a : ℚ
  b : ℚ
  c : ℚ
  d : ℚ
  deriving DecidableEq, Repr

/-- One entry of `sdb2sri`:
`10**(db/20) * complex(cos(deg·π/180), sin(deg·π/180))`. -/
def sdb2sri_entry (cosF sinF tpow : ℚ → ℚ) (piQ db deg : ℚ) : CQ :=
  ⟨tpow (db / 20) * cosF (deg * piQ / 180),
   tpow (db / 20) * sinF (deg * piQ / 180)⟩

/-- One frequency point of `sdb2sri`. -/
def sdb2sri_point (cosF sinF tpow : ℚ → ℚ) (piQ : ℚ) (sdb sdeg : QMat2) : Mat2 :=
  ⟨sdb2sri_entry cosF sinF tpow piQ sdb.a sdeg.a,
   sdb2sri_entry cosF sinF tpow piQ sdb.b sdeg.b,
   sdb2sri_entry cosF sinF tpow piQ sdb.c sdeg.c,
   sdb2sri_entry cosF sinF tpow piQ sdb.d sdeg.d⟩

/-- One frequency point of `sdb2abcd` (lines 551-556): dB/deg to real/imag
followed by `sri2abcd(sri)` with its DEFAULT arguments `Z01 = Z02 = 50`
(`sdb2abcd` has no impedance parameter at all); `np.sqrt(50*50) = 50.0`
exactly in floats, hence `r = 50`. -/
def sdb2abcd_point (cosF sinF tpow : ℚ → ℚ) (piQ : ℚ) (sdb sdeg : QMat2) : Mat2 :=
  sri2abcd_point 50 (CQ.ofQ 50) (CQ.ofQ 50) (sdb2sri_point cosF sinF tpow piQ sdb sdeg)

/-- Trace-level `sdb2abcd`. -/
def sdb2abcd_trace (cosF sinF tpow : ℚ → ℚ) (piQ : ℚ)
    (sdb sdeg : List QMat2) : List Mat2 :=
  (sdb.zip sdeg).map (fun p => sdb2abcd_point cosF sinF tpow piQ p.1 p.2)

/-- The S-to-ABCD conversion at `get_pad_abcd`'s call sites
(lines 614-615): the probe impedance `z0_probe` is in scope there but not
passed on — `sdb2abcd` accepts no impedance argument. -/
def get_pad_abcd_dut_conversion (z0_probe : CQ) (cosF sinF tpow : ℚ → ℚ)
    (piQ : ℚ) (sdb sdeg : List QMat2) : List Mat2 :=
  sdb2abcd_trace cosF sinF tpow piQ sdb sdeg

/-- The per-structure DUT conversion in `extract_rlgc` (line 79), likewise
holding `z0_probe` but not passing it to `sdb2abcd`. -/
def extract_rlgc_dut_conversion (z0_probe : CQ) (cosF sinF tpow : ℚ → ℚ)
    (piQ : ℚ) (sdb sdeg : List QMat2) : List Mat2 :=
  sdb2abcd_trace cosF sinF tpow piQ sdb sdeg

/-- Claim C10: for any dB/deg input and any two probe-impedance values,
the ABCD traces produced along the pipeline's S-to-ABCD path (the pad
extractor's and the per-structure conversions) are identical, and both
equal the fixed-50Ω `sri2abcd` applied to the dB/deg data — the
conversion is independent of the supplied probe impedance. -/
theorem C10_sdb2abcd_ignores_z0 (cosF sinF tpow : ℚ → ℚ) (piQ : ℚ)
    (z0 z0' : CQ) (sdb sdeg : List QMat2) :
    get_pad_abcd_dut_conversion z0 cosF sinF tpow piQ sdb sdeg
      = get_pad_abcd_dut_conversion z0' cosF sinF tpow piQ sdb sdeg ∧
    extract_rlgc_dut_conversion z0 cosF sinF tpow piQ sdb sdeg
      = extract_rlgc_dut_conversion z0' cosF sinF tpow piQ sdb sdeg ∧
    get_pad_abcd_dut_conversion z0 cosF sinF tpow piQ sdb sdeg
      = (sdb.zip sdeg).map (fun p => sri2abcd_point 50 (CQ.ofQ 50) (CQ.ofQ 50)
          (sdb2sri_point cosF sinF tpow piQ p.1 p.2)) :=
  ⟨rfl, rfl, rfl⟩

/-!
Exact-real model of the dB/deg conversions (`sri2sdb`, lines 560-604, and
`sdb2sri`, lines 519-547) and of the loss-tangent / attenuation lines
(265-266 and 335-337).  These claims are about the analytic behaviour of
`log10`, `10**`, `arcsin`, `cos`, `sin`, `abs` and `exp`, so they are
stated over `ℝ` and `ℂ` with Mathlib's exact functions (the float
versions approximate these).
-/

/-- One entry of `sri2sdb` (lines 574-582): dB value `20·log10|s|` and
degree value `arcsin(Im s / |s|)·180/π`. -/
noncomputable def sri2sdb_entry (s : ℂ) : ℝ × ℝ :=
  (20 * Real.logb 10 (Complex.abs s),
   Real.arcsin (s.im / Complex.abs s) * 180 / Real.pi)

/-- One entry of `sdb2sri` over exact reals (lines 537-540):
`10**(db/20) * complex(cos(deg·π/180), sin(deg·π/180))`. -/
noncomputable def sdb2sri_entryR (db deg : ℝ) : ℂ :=
  (((10 : ℝ) ^ (db / 20) : ℝ) : ℂ) *
    ((Real.cos (deg * Real.pi / 180) : ℂ) + (Real.sin (deg * Real.pi / 180) : ℂ) * Complex.I)

theorem sdb2sri_sri2sdb_entry {s : ℂ} (hre : 0 < s.re) :
    sdb2sri_entryR (sri2sdb_entry s).1 (sri2sdb_entry s).2 = s := by
  have hs0 : s ≠ 0 := by
    intro h
    rw [h] at hre
    simp at hre
  have habs : 0 < Complex.abs s := Complex.abs.pos hs0
  have him := Complex.abs_im_le_abs s
  have ht1 : -1 ≤ s.im / Complex.abs s := by
    rw [neg_le, ← neg_div]
    apply div_le_one_of_le₀ ?_ (le_of_lt habs)
    calc -s.im ≤ |s.im| := neg_le_abs s.im
    _ ≤ Complex.abs s := him
  have ht2 : s.im / Complex.abs s ≤ 1 := by
    apply div_le_one_of_le₀ ?_ (le_of_lt habs)
    exact le_trans (le_abs_self s.im) him
  have habs2 : (Complex.abs s) ^ 2 = s.re ^ 2 + s.im ^ 2 := by
    rw [Complex.sq_abs, Complex.normSq_apply]
    ring
  unfold sdb2sri_entryR sri2sdb_entry
  have h20 : 20 * Real.logb 10 (Complex.abs s) / 20 = Real.logb 10 (Complex.abs s) := by
    ring
  have hθ : Real.arcsin (s.im / Complex.abs s) * 180 / Real.pi * Real.pi / 180
      = Real.arcsin (s.im / Complex.abs s) := by
    field_simp
  rw [h20, hθ, Real.rpow_logb (by norm_num) (by norm_num) habs]
  rw [Real.cos_arcsin, Real.sin_arcsin ht1 ht2]
  have hsq : 1 - (s.im / Complex.abs s) ^ 2 = (s.re / Complex.abs s) ^ 2 := by
    field_simp
  rw [hsq, Real.sqrt_sq (le_of_lt (div_pos hre habs))]
  apply Complex.ext
  · simp only [Complex.mul_re, Complex.add_re, Complex.ofReal_re, Complex.add_im,
      Complex.mul_im, Complex.ofReal_im, Complex.I_re, Complex.I_im]
    field_simp
  · simp only [Complex.mul_re, Complex.add_re, Complex.ofReal_re, Complex.add_im,
      Complex.mul_im, Complex.ofReal_im, Complex.I_re, Complex.I_im]
    field_simp

theorem sdb2sri_abs_roundtrip {s : ℂ} (hs0 : s ≠ 0) :
    Complex.abs (sdb2sri_entryR (sri2sdb_entry s).1 (sri2sdb_entry s).2)
      = Complex.abs s := by
  have habs : 0 < Complex.abs s := Complex.abs.pos hs0
  unfold sdb2sri_entryR sri2sdb_entry
  rw [map_mul]
  have h20 : 20 * Real.logb 10 (Complex.abs s) / 20 = Real.logb 10 (Complex.abs s) := by
    ring
  rw [h20]
  rw [Complex.ofReal_cos, Complex.ofReal_sin, Complex.abs_cos_add_sin_mul_I]
  rw [Complex.abs_ofReal, abs_of_pos (Real.rpow_pos_of_pos (by norm_num) _)]
  rw [Real.rpow_logb (by norm_num) (by norm_num) habs, mul_one]

/-- A 2x2 complex matrix over Mathlib's exact complex numbers. -/
structure CMat2 where
  a : ℂ
  b : ℂ
  c : ℂ
  d : ℂ

/-- A 2x2 real matrix over exact reals (dB or degree values). -/
structure RMat2 where
  a : ℝ
  b : ℝ
  c : ℝ
  d : ℝ

/-- `sri2sdb` (lines 560-604) at one frequency point: the dB matrix and
the degree matrix. -/
noncomputable def sri2sdb (m : CMat2) : RMat2 × RMat2 :=
  (⟨(sri2sdb_entry m.a).1, (sri2sdb_entry m.b).1,
    (sri2sdb_entry m.c).1, (sri2sdb_entry m.d).1⟩,
   ⟨(sri2sdb_entry m.a).2, (sri2sdb_entry m.b).2,
    (sri2sdb_entry m.c).2, (sri2sdb_entry m.d).2⟩)

/-- `sdb2sri` (lines 519-547) at one frequency point, over exact reals. -/
noncomputable def sdb2sriR (db deg : RMat2) : CMat2 :=
  ⟨sdb2sri_entryR db.a deg.a, sdb2sri_entryR db.b deg.b,
   sdb2sri_entryR db.c deg.c, sdb2sri_entryR db.d deg.d⟩

/-- Claim C7: for every S matrix whose entries all have phase strictly
inside (−90°, 90°) and nonzero magnitude, `sdb2sri ∘ sri2sdb` returns the
original matrix; and the magnitude alone is recovered for every nonzero
entry without any phase restriction. -/
theorem C7_db_deg_roundtrip (m : CMat2)
    (haa : |Complex.arg m.a| < Real.pi / 2) (ha0 : m.a ≠ 0)
    (hab : |Complex.arg m.b| < Real.pi / 2) (hb0 : m.b ≠ 0)
    (hac : |Complex.arg m.c| < Real.pi / 2) (hc0 : m.c ≠ 0)
    (had : |Complex.arg m.d| < Real.pi / 2) (hd0 : m.d ≠ 0) :
    sdb2sriR (sri2sdb m).1 (sri2sdb m).2 = m ∧
    (∀ s : ℂ, s ≠ 0 →
      Complex.abs (sdb2sri_entryR (sri2sdb_entry s).1 (sri2sdb_entry s).2)
        = Complex.abs s) := by
  have pos : ∀ z : ℂ, |Complex.arg z| < Real.pi / 2 → z ≠ 0 → 0 < z.re := by
    intro z hz hz0
    rcases Complex.abs_arg_lt_pi_div_two_iff.mp hz with h | h
    · exact h
    · exact absurd h hz0
  constructor
  · unfold sdb2sriR sri2sdb
    simp only
    congr 1 <;>
      [skip; exact sdb2sri_sri2sdb_entry (pos _ hab hb0);
       exact sdb2sri_sri2sdb_entry (pos _ hac hc0);
       exact sdb2sri_sri2sdb_entry (pos _ had hd0)]
    exact sdb2sri_sri2sdb_entry (pos _ haa ha0)
  · intro s hs0
    exact sdb2sri_abs_roundtrip hs0

/-- Witness for C7 at the all-ones S matrix (phase 0 everywhere). -/
theorem C7_db_deg_roundtrip_witness :
    sdb2sriR (sri2sdb ⟨1, 1, 1, 1⟩).1 (sri2sdb ⟨1, 1, 1, 1⟩).2 = ⟨1, 1, 1, 1⟩ ∧
    (∀ s : ℂ, s ≠ 0 →
      Complex.abs (sdb2sri_entryR (sri2sdb_entry s).1 (sri2sdb_entry s).2)
        = Complex.abs s) := by
  have harg : |Complex.arg (1 : ℂ)| < Real.pi / 2 := by
    rw [Complex.arg_one, abs_zero]
    positivity
  exact C7_db_deg_roundtrip ⟨1, 1, 1, 1⟩ harg one_ne_zero harg one_ne_zero
    harg one_ne_zero harg one_ne_zero

/-- The loss-tangent formula of lines 265 and 335:
`Re(γ/Zc) / Im(γ/Zc)` (float division, exact-real model). -/
noncomputable def losstanR (gamma Zc : ℂ) : ℝ :=
  (gamma / Zc).re / (gamma / Zc).im

/-- The attenuation formula of lines 266 and 337:
`20·log10(abs(exp(−γ·length)))`. -/
noncomputable def attenuationR (gamma : ℂ) (length_m : ℝ) : ℝ :=
  20 * Real.logb 10 (Complex.abs (Complex.exp (-(gamma * (length_m : ℂ)))))

/-- Counterexample to C8 as stated: for the passive propagation constant
`γ = 1` (non-negative real part) and length 1 the returned attenuation is
strictly negative, not non-negative: the code's attenuation is in signed
dB (`20·log10` of a magnitude ≤ 1). -/
theorem C8_attenuation_negative_on_lossy_line :
    0 ≤ (1 : ℂ).re ∧ attenuationR 1 1 < 0 := by
  constructor
  · simp
  · unfold attenuationR
    have h1 : -((1 : ℂ) * ((1 : ℝ) : ℂ)) = ((-1 : ℝ) : ℂ) := by
      push_cast
      ring
    rw [h1, Complex.abs_exp, Complex.ofReal_re, Real.logb, Real.log_exp]
    have hlog : 0 < Real.log 10 := Real.log_pos (by norm_num)
    have : (-1 : ℝ) / Real.log 10 < 0 := div_neg_of_neg_of_pos (by norm_num) hlog
    nlinarith

/-- Claim C8 (amended): for a passive network — `Re(γ/Zc) ≥ 0` (G ≥ 0) and
`Im(γ/Zc) > 0` (capacitive, C > 0), with `Re γ ≥ 0` and non-negative
length — the loss tangent is non-negative and the attenuation is
NON-POSITIVE (signed dB: `|exp(−γℓ)| ≤ 1`). -/
theorem C8_losstan_nonneg_attenuation_nonpos (gamma Zc : ℂ) (length_m : ℝ)
    (hG : 0 ≤ (gamma / Zc).re) (hC : 0 < (gamma / Zc).im)
    (hg : 0 ≤ gamma.re) (hl : 0 ≤ length_m) :
    0 ≤ losstanR gamma Zc ∧ attenuationR gamma length_m ≤ 0 := by
  constructor
  · exact div_nonneg hG (le_of_lt hC)
  · unfold attenuationR
    have key : Complex.abs (Complex.exp (-(gamma * (length_m : ℂ))))
        = Real.exp (-(gamma.re * length_m)) := by
      rw [Complex.abs_exp]
      congr 1
      simp [Complex.neg_re, Complex.mul_re, Complex.ofReal_re, Complex.ofReal_im]
    rw [key]
    have hle : Real.exp (-(gamma.re * length_m)) ≤ 1 := by
      rw [← Real.exp_zero]
      apply Real.exp_le_exp.mpr
      nlinarith
    have hlog : Real.logb 10 (Real.exp (-(gamma.re * length_m))) ≤ 0 :=
      Real.logb_nonpos (by norm_num) (le_of_lt (Real.exp_pos _)) hle
    nlinarith

/-- Witness for (amended) C8 at `γ = i` (lossless), `Zc = 1`, length 1. -/
theorem C8_losstan_nonneg_attenuation_nonpos_witness :
    0 ≤ losstanR Complex.I 1 ∧ attenuationR Complex.I 1 ≤ 0 :=
  C8_losstan_nonneg_attenuation_nonpos Complex.I 1 1
    (by simp) (by simp) (by simp) (by norm_num)
